import Mathlib

set_option maxHeartbeats 1000000

/-!
A verification development for the Ludo game engine: the board geometry,
move engine (`calculateNewPosition`, `hasBlock`, `isPathBlocked`,
`wouldJumpOwnTokenInHomeColumn`, `getValidMoves`, `checkCapture`,
`moveToken`, `checkWin`), the bot policy (`chooseBotMove`), the validators
(`canRollDice`, `canEndTurn`) and the dice-roll mutation
(`rollDiceMutation`).  Positions are JS numbers holding small integers, so
they are embedded as `Int`; the JS `%` operator is the truncating remainder
`Int.tmod`.  JS `Array` methods map to their `List` counterparts
(`filter`, `find?`, `filterMap`, stable `mergeSort` for `Array.sort`).
-/

/-- `BOARD_SIZE = 52`: squares on the main track. -/
def BOARD_SIZE : Int := 52

/-- `HOME_COLUMN_SIZE = 6`: 5 squares plus 1 finish position in the home column. -/
def HOME_COLUMN_SIZE : Int := 6

/-- Safe zone positions: start positions and star squares. -/
def SAFE_ZONES : List Int := [0, 8, 13, 21, 26, 34, 39, 47]

/-- The four player colors. -/
inductive PlayerColor where
  | red
  | blue
  | green
  | yellow
deriving DecidableEq, Repr

/-- A token: `position` is `-1` in base, `0..51` on the main track,
`52..56` in the home column and `57` finished. -/
structure Token where
  id : Nat
  position : Int
  isHome : Bool
  isFinished : Bool
deriving DecidableEq, Repr

/-- A player as the engine sees it. -/
structure Player where
  playerId : String
  nickname : String
  color : PlayerColor
  tokens : List Token
  isReady : Bool
  playerIndex : Nat
  isBot : Bool
deriving DecidableEq, Repr

/-- Starting positions for each color (where they enter the main track). -/
def START_POSITIONS : PlayerColor → Int
  | .red => 0
  | .green => 13
  | .yellow => 26
  | .blue => 39

/-- Home entry positions: the position after which a token enters its home column. -/
def HOME_ENTRY : PlayerColor → Int
  | .red => 51
  | .green => 12
  | .yellow => 25
  | .blue => 38

/-- `initializeTokens`: four tokens, ids `0..3`, all in the starting area. -/
def initializeTokens : List Token :=
  (List.range 4).map (fun i => { id := i, position := -1, isHome := true, isFinished := false })

/-- `calculateNewPosition`: the new position after moving `steps`, or `none`
when the move is invalid (e.g. would exceed the home column). -/
def calculateNewPosition (color : PlayerColor) (currentPosition : Int) (steps : Int) :
    Option Int :=
  if currentPosition = -1 then
    -- token is in home base, can only move if rolled 6
    if steps = 6 then some (START_POSITIONS color) else none
  else if 52 ≤ currentPosition then
    -- token is in home column (positions 52-56, with 57 being finish)
    let homePosition := currentPosition - 52
    let newHomePosition := homePosition + steps
    if newHomePosition = HOME_COLUMN_SIZE - 1 then some (52 + newHomePosition)
    else if newHomePosition < HOME_COLUMN_SIZE - 1 then some (52 + newHomePosition)
    else none
  else
    -- token is on the main track (positions 0-51)
    let startPos := START_POSITIONS color
    let homeEntry := HOME_ENTRY color
    let distanceFromStart := (currentPosition - startPos + BOARD_SIZE).tmod BOARD_SIZE
    let newDistanceFromStart := distanceFromStart + steps
    let homeEntryDistance := (homeEntry - startPos + BOARD_SIZE).tmod BOARD_SIZE
    if homeEntryDistance < newDistanceFromStart then
      let stepsIntoHome := newDistanceFromStart - homeEntryDistance - 1
      if stepsIntoHome = HOME_COLUMN_SIZE - 1 then some (52 + stepsIntoHome)
      else if stepsIntoHome < HOME_COLUMN_SIZE - 1 then some (52 + stepsIntoHome)
      else none
    else
      some ((currentPosition + steps).tmod BOARD_SIZE)

/-- The specification's reference definition of `computeDestination`, written
from the spec's words: base (`-1`) leaves only on a 6; a home-column position
`52..56` advances by `steps` and is valid exactly when it lands at or before
the finish offset `HOME_COLUMN_SIZE - 1`; a main-track position `0..51`
diverts into the home column when `distanceFromStart + steps` exceeds
`homeEntryDistance` (same landing/overshoot rule) and otherwise advances to
`(currentPosition + steps) mod 52`. -/
def calculateNewPositionSpec (color : PlayerColor) (currentPosition : Int) (steps : Int) :
    Option Int :=
  if currentPosition = -1 then
    if steps = 6 then some (START_POSITIONS color) else none
  else if 52 ≤ currentPosition ∧ currentPosition ≤ 56 then
    let newHomePos := currentPosition - 52 + steps
    if newHomePos ≤ HOME_COLUMN_SIZE - 1 then some (52 + newHomePos) else none
  else if 0 ≤ currentPosition ∧ currentPosition ≤ 51 then
    let distanceFromStart := (currentPosition - START_POSITIONS color) % 52
    let homeEntryDistance := (HOME_ENTRY color - START_POSITIONS color) % 52
    if homeEntryDistance < distanceFromStart + steps then
      let stepsIntoHome := distanceFromStart + steps - homeEntryDistance - 1
      if stepsIntoHome ≤ HOME_COLUMN_SIZE - 1 then some (52 + stepsIntoHome) else none
    else
      some ((currentPosition + steps) % 52)
  else none

/-- The tokens of `p` sitting at `position` that are neither in base nor finished
(the filter repeated throughout the source). -/
def tokensAtPos (p : Player) (position : Int) : List Token :=
  p.tokens.filter (fun t => t.position == position && !t.isHome && !t.isFinished)

/-- JS truthiness of a string: the empty string is falsy. -/
def jsTruthy (s : String) : Bool := !(s == "")

/-- The `excludePlayerId && player.playerId === excludePlayerId` guard of
`hasBlock`, including the JS truthiness of the optional argument. -/
def blockExcluded (excludePlayerId : Option String) (pid : String) : Bool :=
  match excludePlayerId with
  | none => false
  | some e => jsTruthy e && pid == e

/-- `hasBlock`: whether a position holds a block (2+ tokens of one player),
and the first such player's id.  Blocks only exist on the main track. -/
def hasBlock (players : List Player) (position : Int) (excludePlayerId : Option String) :
    Bool × Option String :=
  if position < 0 ∨ 52 ≤ position then (false, none)
  else
    match players.find? (fun p =>
        !(blockExcluded excludePlayerId p.playerId) &&
          decide (2 ≤ (tokensAtPos p position).length)) with
    | some p => (true, some p.playerId)
    | none => (false, none)

/-- The loop body of `isPathBlocked` (`for i = 1..steps`), recursing on the
remaining iteration count. -/
def pathLoop (players : List Player) (player : Player) (fromPosition toPosition : Int) :
    Nat → Int → Bool
  | 0, _ => false
  | n + 1, i =>
    let checkPos := (fromPosition + i).tmod 52
    -- if we're entering home column, stop checking main track
    if checkPos == toPosition && decide (52 ≤ toPosition) then false
    else
      let r := hasBlock players checkPos none
      -- can pass through own blocks, but not opponents'
      if r.1 && !(r.2 == some player.playerId) then true
      else pathLoop players player fromPosition toPosition n (i + 1)

/-- `isPathBlocked`: whether the path from `fromPosition` to `toPosition` is
blocked by an opponent's block. -/
def isPathBlocked (players : List Player) (player : Player) (fromPosition toPosition : Int) :
    Bool :=
  if fromPosition < 0 ∨ 52 ≤ fromPosition then false
  else
    let steps := if fromPosition ≤ toPosition then toPosition - fromPosition
                 else 52 - fromPosition + toPosition
    pathLoop players player fromPosition toPosition steps.toNat 1

/-- `wouldJumpOwnTokenInHomeColumn`: whether moving in the home column from
`fromPosition` to `toPosition` would jump over one of the player's own
(other, unfinished) tokens.  The loop runs over the home offsets strictly
between the two endpoints. -/
def wouldJumpOwnTokenInHomeColumn (player : Player) (tokenId : Nat)
    (fromPosition toPosition : Int) : Bool :=
  -- only applies in home column (positions 52-57)
  if fromPosition < 52 ∨ toPosition < 52 then false
  else
    let fromHomePos := fromPosition - 52
    let toHomePos := toPosition - 52
    (List.range (toHomePos - fromHomePos - 1).toNat).any (fun j =>
      let pos := fromHomePos + 1 + j
      let absolutePos := 52 + pos
      player.tokens.any (fun t =>
        !(t.id == tokenId) && t.position == absolutePos && !t.isFinished))

/-- The body of `getValidMoves`' loop over board tokens (the engine's lines
checking one on-board token): compute the destination, then reject on a
blocked path, a blocked destination, or a home-column jump over an own
token; `some token.id` means the token survives all filters. -/
def boardTokenMove (players : List Player) (player : Player) (diceValue : Int)
    (token : Token) : Option Nat :=
  match calculateNewPosition player.color token.position diceValue with
  | none => none
  | some newPosition =>
    if token.position < 52 ∧ newPosition < 52 ∧
        isPathBlocked players player token.position newPosition = true then none
    else if newPosition < 52 ∧
        ((hasBlock players newPosition none).1 = true ∧
          ¬(hasBlock players newPosition none).2 = some player.playerId) then none
    else if 52 ≤ token.position ∧ 52 ≤ newPosition ∧
        wouldJumpOwnTokenInHomeColumn player token.id token.position newPosition = true then
      none
    else if token.position < 52 ∧ 52 ≤ newPosition ∧
        wouldJumpOwnTokenInHomeColumn player token.id (52 - 1) newPosition = true then none
    else some token.id

/-- `getValidMoves`: the token ids the player may move with this dice value. -/
def getValidMoves (players : List Player) (player : Player) (diceValue : Int) : List Nat :=
  -- if rolled 6, can move a token from home base to start
  let homeIds :=
    if diceValue = 6 then
      let homeTokens := player.tokens.filter (fun t => t.isHome && !t.isFinished)
      if 0 < homeTokens.length then
        let startPos := START_POSITIONS player.color
        let r := hasBlock players startPos none
        -- can move out if: no block, or block is our own
        if !r.1 || r.2 == some player.playerId then homeTokens.map Token.id else []
      else []
    else []
  -- check tokens on board (main track or home column)
  let boardTokens := player.tokens.filter (fun t => !t.isHome && !t.isFinished)
  homeIds ++ boardTokens.filterMap (boardTokenMove players player diceValue)

/-- The per-token capture update of `checkCapture`: a token at the landing
position (not in base, not finished) is sent back to base. -/
def captureTokenAt (position : Int) (token : Token) : Token :=
  if token.position = position ∧ token.isHome = false ∧ token.isFinished = false then
    { token with position := -1, isHome := true }
  else token

/-- `checkCapture`: apply captures at `position`.  No capture in the home
column, on safe zones, or against a block. -/
def checkCapture (players : List Player) (movingPlayer : Player) (position : Int) :
    List Player :=
  if 52 ≤ position then players
  else if position ∈ SAFE_ZONES then players
  else if (hasBlock players position (some movingPlayer.playerId)).1 = true then players
  else players.map (fun p =>
    if p.playerId = movingPlayer.playerId then p
    else { p with tokens := p.tokens.map (captureTokenAt position) })

/-- The result of a successful `moveToken`. -/
structure MoveResult where
  updatedPlayer : Player
  updatedPlayers : List Player
  captured : Bool
deriving DecidableEq, Repr

/-- The destination computation of `moveToken` (its lines after fetching the
token): from base on a 6 the start square, from the board the engine's
`calculateNewPosition`, otherwise no destination. -/
def moveDestination (player : Player) (tokenId : Nat) (diceValue : Int) : Option Int :=
  match player.tokens[tokenId]? with
  | none => none
  | some token =>
    if token.isHome = true ∧ diceValue = 6 then some (START_POSITIONS player.color)
    else if token.isHome = false then
      calculateNewPosition player.color token.position diceValue
    else none

/-- The per-token position update of `moveToken`: the moved token gets the new
position, leaves base, and is finished exactly on the finish square 57. -/
def moveTokenUpdate (newPosition : Int) (tokenId : Nat) (t : Token) : Token :=
  if t.id = tokenId then
    { t with position := newPosition, isHome := false, isFinished := decide (newPosition = 57) }
  else t

/-- `moveToken`: validates against `getValidMoves`, computes the destination,
applies captures, then moves the token; `none` is the FAIL result. -/
def moveToken (players : List Player) (player : Player) (tokenId : Nat) (diceValue : Int) :
    Option MoveResult :=
  match player.tokens[tokenId]? with
  | none => none
  | some _token =>
    if tokenId ∈ getValidMoves players player diceValue then
      match moveDestination player tokenId diceValue with
      | none => none
      | some newPosition =>
        -- check if this move captures an opponent (before updating position)
        let captured :=
          if newPosition < 52 ∧ newPosition ∉ SAFE_ZONES then
            players.any (fun otherPlayer =>
              !(otherPlayer.playerId == player.playerId) &&
                decide ((tokensAtPos otherPlayer newPosition).length = 1))
          else false
        -- apply captures
        let updatedPlayers0 := checkCapture players player newPosition
        match updatedPlayers0.find? (fun p => p.playerId == player.playerId) with
        | none => none
        | some updatedPlayerBeforeMove =>
          let updatedPlayer : Player :=
            { updatedPlayerBeforeMove with
              tokens := updatedPlayerBeforeMove.tokens.map (moveTokenUpdate newPosition tokenId) }
          let updatedPlayers := updatedPlayers0.map (fun p =>
            if p.playerId = player.playerId then updatedPlayer else p)
          some { updatedPlayer := updatedPlayer, updatedPlayers := updatedPlayers,
                 captured := captured }
    else none

/-- `checkWin`: a player has won when every token is finished. -/
def checkWin (player : Player) : Bool :=
  player.tokens.all (fun token => token.isFinished)

/-- One scored candidate of the bot policy. -/
structure MoveScore where
  tokenId : Nat
  score : ℚ
deriving DecidableEq, Repr

/-- The body of `chooseBotMove`'s scoring loop for one candidate token id.
JS numbers only take half-integer values here, so scores are embedded as
rationals. -/
def botScore (players : List Player) (player : Player) (diceValue : Int) (tokenId : Nat) :
    Option MoveScore :=
  match player.tokens[tokenId]? with
  | none => none
  | some token =>
    let p0 : ℚ × Option Int :=
      if token.isHome = true ∧ diceValue = 6 then
        (50, some (START_POSITIONS player.color))   -- bonus for getting a token out
      else if token.isHome = false ∧ token.isFinished = false then
        (0, calculateNewPosition player.color token.position diceValue)
      else (0, none)
    match p0.2 with
    | none => some { tokenId := tokenId, score := p0.1 }
    | some newPosition =>
      let score1 :=
        if newPosition < 52 ∧ newPosition ∉ SAFE_ZONES ∧
            players.any (fun otherPlayer =>
              !(otherPlayer.playerId == player.playerId) &&
                decide ((tokensAtPos otherPlayer newPosition).length = 1)) = true then
          p0.1 + 100   -- high priority for captures
        else p0.1
      let score2 := if newPosition = 57 then score1 + 200 else score1
      let score3 :=
        if token.isHome = false then
          if 52 ≤ token.position then
            score2 + ((30 + (token.position - 52) * 5 : Int) : ℚ)
          else
            score2 +
              (((token.position - START_POSITIONS player.color + BOARD_SIZE).tmod
                BOARD_SIZE : Int) : ℚ) / 2
        else score2
      let score4 := if newPosition < 52 ∧ newPosition ∈ SAFE_ZONES then score3 + 10 else score3
      some { tokenId := tokenId, score := score4 }

/-- `chooseBotMove`: no move on an empty move set, the unique move when only
one exists, otherwise the highest-scoring candidate (stable sort, descending
score, ties broken by first-found). -/
def chooseBotMove (players : List Player) (player : Player) (diceValue : Int) : Option Nat :=
  let validMoves := getValidMoves players player diceValue
  if validMoves.length = 0 then none
  else if validMoves.length = 1 then validMoves[0]?
  else
    let moveScores := validMoves.filterMap (botScore players player diceValue)
    let sorted := moveScores.mergeSort (fun a b => decide (b.score ≤ a.score))
    match sorted.head? with
    | some best => some best.tokenId
    | none => validMoves.head?

/-- The game-state machine's phases. -/
inductive GameState where
  | waiting
  | playing
  | finished
deriving DecidableEq, Repr

/-- The room fields the validators and the dice-roll mutation read and write. -/
structure Room where
  gameState : GameState
  currentPlayerIndex : Nat
  diceValue : Int
  hasRolledDice : Bool
  consecutiveSixes : Nat
deriving DecidableEq, Repr

/-- A validator's result. -/
structure ValidationResult where
  valid : Bool
  error : Option String
deriving DecidableEq, Repr

/-- `canRollDice`: game playing, caller is the current player, dice not yet
rolled. -/
def canRollDice (room : Room) (players : List Player) (playerId : String) :
    ValidationResult :=
  if room.gameState ≠ GameState.playing then ⟨false, some "Game is not in progress"⟩
  else
    match players[room.currentPlayerIndex]? with
    | none => ⟨false, some "Not your turn"⟩
    | some currentPlayer =>
      if currentPlayer.playerId ≠ playerId then ⟨false, some "Not your turn"⟩
      else if room.hasRolledDice = true then ⟨false, some "You have already rolled the dice"⟩
      else ⟨true, none⟩

/-- `canEndTurn`: game playing, caller is the current player, dice rolled, and
after a 6 with at least one legal move the turn may not be ended. -/
def canEndTurn (room : Room) (players : List Player) (playerId : String) :
    ValidationResult :=
  if room.gameState ≠ GameState.playing then ⟨false, some "Game is not in progress"⟩
  else
    match players[room.currentPlayerIndex]? with
    | none => ⟨false, some "Not your turn"⟩
    | some currentPlayer =>
      if currentPlayer.playerId ≠ playerId then ⟨false, some "Not your turn"⟩
      else if room.hasRolledDice = false then ⟨false, some "You must roll the dice first"⟩
      else if room.diceValue = 6 ∧ room.hasRolledDice = true then
        if 0 < (getValidMoves players currentPlayer room.diceValue).length then
          ⟨false, some "You must move a token when you roll 6"⟩
        else ⟨true, none⟩
      else ⟨true, none⟩

/-- The outcome value `rollDiceMutation` returns to its caller. -/
inductive RollOutcome where
  | success (diceValue : Int) (thirdSix : Bool)
  | failure (error : String)
deriving DecidableEq, Repr

/-- `rollDiceMutation`'s handler as a state transformer: the rolled value is
an input (the JS draws it from `rollDice()`), the returned room and players
are the database contents after the handler's patches (the handler never
patches any player document). -/
def rollDiceMutation (room : Room) (players : List Player) (playerId : String)
    (diceValue : Int) : Room × List Player × RollOutcome :=
  let validation := canRollDice room players playerId
  if validation.valid = false then
    (room, players, RollOutcome.failure (validation.error.getD "Cannot roll dice"))
  else if diceValue = 6 then
    let consecutiveSixes := room.consecutiveSixes + 1
    if 3 ≤ consecutiveSixes then
      -- third consecutive 6: end turn immediately, no move permitted
      let nextPlayerIndex := (room.currentPlayerIndex + 1) % players.length
      let room1 := { room with
        diceValue := diceValue
        hasRolledDice := true
        consecutiveSixes := 0
        currentPlayerIndex := nextPlayerIndex }
      -- second patch: reset hasRolledDice for next player
      let room2 := { room1 with hasRolledDice := false, diceValue := 0 }
      (room2, players, RollOutcome.success diceValue true)
    else
      ({ room with
        diceValue := diceValue
        hasRolledDice := true
        consecutiveSixes := consecutiveSixes }, players, RollOutcome.success diceValue false)
  else
    ({ room with diceValue := diceValue, hasRolledDice := true, consecutiveSixes := 0 },
      players, RollOutcome.success diceValue false)

/-- The token invariant: finished tokens sit on 57, in-base tokens on -1, and
a token is never both finished and in base. -/
def TokenInv (t : Token) : Prop :=
  (t.isFinished = true → t.position = 57) ∧
  (t.isHome = true → t.position = -1) ∧
  ¬(t.isFinished = true ∧ t.isHome = true)

/-- The number of active opponent tokens (of players other than `pid`) at a
position: the claim vocabulary for "holds exactly one opponent token". -/
def opponentActiveAt (players : List Player) (pid : String) (position : Int) : Nat :=
  ((players.filter (fun p => !(p.playerId == pid))).map
    (fun p => (tokensAtPos p position).length)).sum

/-! ## C1: `calculateNewPosition` matches the spec's reference definition -/

/-- C1: for every color, every current position in the encoding's domain
(`-1` for base, `0..51` main track, `52..56` home column) and every
nonnegative step count, the engine's `calculateNewPosition` agrees with the
spec's reference definition `calculateNewPositionSpec`: from base it returns
the start square exactly on a 6; from the home column it lands at or before
the finish offset or the move is invalid; from the main track it diverts into
the home column once `distanceFromStart + steps` exceeds `homeEntryDistance`
and otherwise advances modulo 52. -/
theorem calculateNewPosition_matches_spec (color : PlayerColor)
    (currentPosition steps : Int)
    (hpos : currentPosition = -1 ∨ (0 ≤ currentPosition ∧ currentPosition ≤ 56))
    (hsteps : 0 ≤ steps) :
    calculateNewPosition color currentPosition steps =
      calculateNewPositionSpec color currentPosition steps := by
  have hsp : 0 ≤ START_POSITIONS color ∧ START_POSITIONS color ≤ 51 := by
    cases color <;> simp [START_POSITIONS]
  have hhe : 0 ≤ HOME_ENTRY color ∧ HOME_ENTRY color ≤ 51 := by
    cases color <;> simp [HOME_ENTRY]
  rcases hpos with h | ⟨h0, h1⟩
  · subst h
    simp [calculateNewPosition, calculateNewPositionSpec]
  · have hne : ¬ currentPosition = -1 := by omega
    by_cases h52 : 52 ≤ currentPosition
    · simp only [calculateNewPosition, calculateNewPositionSpec, HOME_COLUMN_SIZE,
        if_neg hne, if_pos h52, if_pos (And.intro h52 h1)]
      split_ifs <;> first | rfl | omega
    · have e1 : (currentPosition - START_POSITIONS color + BOARD_SIZE).tmod BOARD_SIZE
          = (currentPosition - START_POSITIONS color) % 52 := by
        rw [BOARD_SIZE, Int.tmod_eq_emod (by omega) (by omega), Int.add_emod_self]
      have e2 : (HOME_ENTRY color - START_POSITIONS color + BOARD_SIZE).tmod BOARD_SIZE
          = (HOME_ENTRY color - START_POSITIONS color) % 52 := by
        rw [BOARD_SIZE, Int.tmod_eq_emod (by omega) (by omega), Int.add_emod_self]
      have e3 : (currentPosition + steps).tmod BOARD_SIZE = (currentPosition + steps) % 52 := by
        rw [BOARD_SIZE, Int.tmod_eq_emod (by omega) (by omega)]
      have hnothome : ¬ (52 ≤ currentPosition ∧ currentPosition ≤ 56) := by omega
      have hmain : 0 ≤ currentPosition ∧ currentPosition ≤ 51 := by omega
      simp only [calculateNewPosition, calculateNewPositionSpec, HOME_COLUMN_SIZE,
        if_neg hne, if_neg h52, if_neg hnothome, if_pos hmain, e1, e2, e3]
      split_ifs <;> first | rfl | omega

/-- Witness for C1 at color red, main-track position 13, step count 4. -/
theorem calculateNewPosition_matches_spec_witness :
    ((13 : Int) = -1 ∨ ((0 : Int) ≤ 13 ∧ (13 : Int) ≤ 56)) ∧ (0 : Int) ≤ 4 ∧
      calculateNewPosition PlayerColor.red 13 4 = calculateNewPositionSpec PlayerColor.red 13 4 :=
  ⟨Or.inr (by decide), by decide,
    calculateNewPosition_matches_spec PlayerColor.red 13 4 (Or.inr (by decide)) (by decide)⟩

/-! ## C10: `checkWin` quantifies over whatever tokens exist -/

/-- C10: `checkWin` is true for a player whose tokens list is empty (the
quantification is vacuous), and in general `checkWin player` is true exactly
when every element of `player.tokens` is finished — no requirement that four
tokens exist. -/
theorem checkWin_spec :
    (∀ pid nick color isReady playerIndex isBot,
      checkWin ⟨pid, nick, color, [], isReady, playerIndex, isBot⟩ = true) ∧
    (∀ player : Player, checkWin player = true ↔ ∀ t ∈ player.tokens, t.isFinished = true) := by
  constructor
  · intro pid nick color isReady playerIndex isBot
    rfl
  · intro player
    simp [checkWin, List.all_eq_true]

/-- Witness for C10: a tokenless player counts as a winner. -/
theorem checkWin_spec_witness :
    checkWin ⟨"ghost", "ghost", PlayerColor.red, [], false, 0, false⟩ = true :=
  checkWin_spec.1 "ghost" "ghost" PlayerColor.red false 0 false

/-! ## C6: `canEndTurn` rejections -/

/-- C6: `canEndTurn` is invalid exactly when the game is not playing, the
caller is not `players[currentPlayerIndex]`, the dice has not been rolled, or
the stored dice value is 6 and the current player still has a legal move; in
that last case the rejection carries the must-move error, and in all other
cases the result is valid. -/
theorem canEndTurn_spec (room : Room) (players : List Player) (playerId : String) :
    ((canEndTurn room players playerId).valid = false ↔
      (room.gameState ≠ GameState.playing ∨
        ¬ (∃ p, players[room.currentPlayerIndex]? = some p ∧ p.playerId = playerId) ∨
        room.hasRolledDice = false ∨
        (room.diceValue = 6 ∧ ∃ p, players[room.currentPlayerIndex]? = some p ∧
          getValidMoves players p room.diceValue ≠ []))) ∧
    (∀ p, players[room.currentPlayerIndex]? = some p → p.playerId = playerId →
      room.gameState = GameState.playing → room.hasRolledDice = true →
      room.diceValue = 6 → getValidMoves players p room.diceValue ≠ [] →
      (canEndTurn room players playerId).error =
        some "You must move a token when you roll 6") := by
  rcases hq : players[room.currentPlayerIndex]? with _ | p
  · constructor
    · simp only [canEndTurn, hq]
      split_ifs <;> simp_all
    · intro p hp
      simp [hq] at hp
  · simp only [canEndTurn, hq]
    constructor
    · split_ifs with h1 h2 h3 h4 h5 <;>
        simp_all [List.length_pos, not_or]
    · intro q hqq
      obtain rfl : p = q := Option.some.inj hqq
      intro h1 h2 h3 h4 h5
      have hlen : 0 < (getValidMoves players p room.diceValue).length :=
        List.length_pos.mpr h5
      rw [h4] at hlen
      simp [h1, h2, h3, h4, hlen]

/-- Witness for C6: a playing room with a rolled 6 and a movable token
rejects end-turn. -/
theorem canEndTurn_spec_witness :
    (canEndTurn ⟨GameState.playing, 0, 6, true, 1⟩
      [⟨"p", "p", PlayerColor.red, [⟨0, 5, false, false⟩], true, 0, false⟩] "p").valid = false :=
  (canEndTurn_spec ⟨GameState.playing, 0, 6, true, 1⟩
    [⟨"p", "p", PlayerColor.red, [⟨0, 5, false, false⟩], true, 0, false⟩] "p").1.mpr
    (Or.inr (Or.inr (Or.inr ⟨rfl,
      ⟨"p", "p", PlayerColor.red, [⟨0, 5, false, false⟩], true, 0, false⟩,
      by decide, by decide⟩)))

/-! ## C7: the third consecutive six forfeits the turn -/

/-- C7: when a valid roll in `rollDiceMutation` produces a 6 that is the
current player's third consecutive six, the room advances
`currentPlayerIndex` to the next player modulo the player count, resets
`consecutiveSixes` to 0, `hasRolledDice` to false and `diceValue` to 0, and
the players (hence every token) are left completely unchanged — no move is
applied on this roll. -/
theorem rollDice_thirdSix_spec (room : Room) (players : List Player) (playerId : String)
    (hvalid : (canRollDice room players playerId).valid = true)
    (hcs : room.consecutiveSixes = 2) :
    rollDiceMutation room players playerId 6 =
      ({ room with
          currentPlayerIndex := (room.currentPlayerIndex + 1) % players.length
          diceValue := 0
          hasRolledDice := false
          consecutiveSixes := 0 }, players, RollOutcome.success 6 true) := by
  simp [rollDiceMutation, hvalid, hcs]

/-- Witness for C7: a concrete playing room at two consecutive sixes. -/
theorem rollDice_thirdSix_spec_witness :
    (canRollDice ⟨GameState.playing, 0, 0, false, 2⟩
        [⟨"p", "p", PlayerColor.red, [⟨0, 5, false, false⟩], true, 0, false⟩] "p").valid
        = true ∧
    rollDiceMutation ⟨GameState.playing, 0, 0, false, 2⟩
        [⟨"p", "p", PlayerColor.red, [⟨0, 5, false, false⟩], true, 0, false⟩] "p" 6 =
      (⟨GameState.playing, (0 + 1) % 1, 0, false, 0⟩,
        [⟨"p", "p", PlayerColor.red, [⟨0, 5, false, false⟩], true, 0, false⟩],
        RollOutcome.success 6 true) :=
  ⟨by decide,
    rollDice_thirdSix_spec ⟨GameState.playing, 0, 0, false, 2⟩
      [⟨"p", "p", PlayerColor.red, [⟨0, 5, false, false⟩], true, 0, false⟩] "p"
      (by decide) rfl⟩

/-! ## Shared engine lemmas -/

/-- Membership in `getValidMoves` comes from a base token on a 6 or from a
board token with a computable destination. -/
theorem getValidMoves_elim {players : List Player} {player : Player} {diceValue : Int}
    {tid : Nat} (h : tid ∈ getValidMoves players player diceValue) :
    (diceValue = 6 ∧ ∃ t ∈ player.tokens, t.isHome = true ∧ t.isFinished = false ∧ t.id = tid)
    ∨ (∃ t ∈ player.tokens, t.isHome = false ∧ t.isFinished = false ∧ t.id = tid ∧
        (calculateNewPosition player.color t.position diceValue).isSome = true) := by
  simp only [getValidMoves] at h
  rcases List.mem_append.mp h with h1 | h2
  · by_cases hd : diceValue = 6
    · left
      refine ⟨hd, ?_⟩
      rw [if_pos hd] at h1
      split_ifs at h1 with hlen hblk
      · rcases List.mem_map.mp h1 with ⟨t, ht, hid⟩
        have hf := List.mem_filter.mp ht
        have hprops : t.isHome = true ∧ t.isFinished = false := by
          have := hf.2
          simp only [Bool.and_eq_true, Bool.not_eq_true'] at this
          exact this
        exact ⟨t, hf.1, hprops.1, hprops.2, hid⟩
      · cases h1
      · cases h1
    · rw [if_neg hd] at h1
      cases h1
  · right
    rcases List.mem_filterMap.mp h2 with ⟨t, ht, hf⟩
    have htf := List.mem_filter.mp ht
    have hprops : t.isHome = false ∧ t.isFinished = false := by
      have := htf.2
      simp only [Bool.and_eq_true, Bool.not_eq_true'] at this
      exact this
    unfold boardTokenMove at hf
    split at hf
    next hc => cases hf
    next np hc =>
      split_ifs at hf
      exact ⟨t, htf.1, hprops.1, hprops.2, Option.some.inj hf, by rw [hc]; rfl⟩

/-- When every token's id equals its index, membership determines lookup. -/
theorem token_lookup_of_idIndex {player : Player}
    (hids : ∀ i (h : i < player.tokens.length), (player.tokens.get ⟨i, h⟩).id = i)
    {t : Token} (ht : t ∈ player.tokens) : player.tokens[t.id]? = some t := by
  rcases List.mem_iff_get.mp ht with ⟨i, hget⟩
  have hid := hids i.1 i.2
  rw [hget] at hid
  rw [hid]
  rw [List.getElem?_eq_getElem i.2]
  simp [← hget, List.get_eq_getElem]

/-- `checkCapture` preserves the sequence of player ids. -/
theorem checkCapture_map_playerId (players : List Player) (movingPlayer : Player)
    (position : Int) :
    (checkCapture players movingPlayer position).map Player.playerId =
      players.map Player.playerId := by
  unfold checkCapture
  split_ifs <;> try rfl
  rw [List.map_map]
  apply List.map_congr_left
  intro p _
  by_cases h : p.playerId = movingPlayer.playerId <;> simp [h]

/-! ## C2: a tokenId from `getValidMoves` never makes `moveToken` FAIL -/

/-- C2: for every players list, every player in it whose token ids equal
their indices (the data model's shape: ids `0..n-1` as `initializeTokens`
creates them), and every dice value, if `tokenId` is an element of
`getValidMoves` then `moveToken` does not return FAIL: it produces an
updated player, an updated players collection and a captured flag. -/
theorem moveToken_succeeds_on_valid (players : List Player) (player : Player)
    (tokenId : Nat) (diceValue : Int)
    (hmem : player ∈ players)
    (hids : ∀ i (h : i < player.tokens.length), (player.tokens.get ⟨i, h⟩).id = i)
    (hvalid : tokenId ∈ getValidMoves players player diceValue) :
    (moveToken players player tokenId diceValue).isSome = true := by
  have hfind : ∀ d : Int, ((checkCapture players player d).find?
      (fun p => p.playerId == player.playerId)).isSome = true := by
    intro d
    apply List.find?_isSome.mpr
    have hpid : player.playerId ∈ (checkCapture players player d).map Player.playerId := by
      rw [checkCapture_map_playerId]
      exact List.mem_map.mpr ⟨player, hmem, rfl⟩
    rcases List.mem_map.mp hpid with ⟨x, hx, hxe⟩
    exact ⟨x, hx, by simp [hxe]⟩
  have main : ∀ t, player.tokens[tokenId]? = some t →
      ∀ d, moveDestination player tokenId diceValue = some d →
      (moveToken players player tokenId diceValue).isSome = true := by
    intro t htok d hdest
    simp only [moveToken, htok]
    rw [if_pos hvalid]
    simp only [hdest]
    rcases hfd : (checkCapture players player d).find?
        (fun p => p.playerId == player.playerId) with _ | ubm
    · exact absurd (hfind d) (by simp [hfd])
    · simp [hfd]
  rcases getValidMoves_elim hvalid with ⟨hd, t, ht, hHome, hFin, hid⟩ |
    ⟨t, ht, hHome, hFin, hid, hcalc⟩
  · have htok : player.tokens[tokenId]? = some t := by
      rw [← hid]
      exact token_lookup_of_idIndex hids ht
    have hdest : moveDestination player tokenId diceValue =
        some (START_POSITIONS player.color) := by
      simp only [moveDestination, htok]
      rw [if_pos ⟨hHome, hd⟩]
    exact main t htok _ hdest
  · have htok : player.tokens[tokenId]? = some t := by
      rw [← hid]
      exact token_lookup_of_idIndex hids ht
    obtain ⟨np, hnp⟩ := Option.isSome_iff_exists.mp hcalc
    have hdest : moveDestination player tokenId diceValue = some np := by
      simp only [moveDestination, htok]
      rw [if_neg (by simp [hHome]), if_pos hHome]
      exact hnp
    exact main t htok np hdest

/-- Witness for C2: a freshly initialized red player rolling a 6 may bring
token 0 out, and `moveToken` succeeds on it. -/
theorem moveToken_succeeds_on_valid_witness :
    (0 : Nat) ∈ getValidMoves [⟨"w2", "w2", PlayerColor.red, initializeTokens, true, 0, false⟩]
        ⟨"w2", "w2", PlayerColor.red, initializeTokens, true, 0, false⟩ 6 ∧
    (moveToken [⟨"w2", "w2", PlayerColor.red, initializeTokens, true, 0, false⟩]
        ⟨"w2", "w2", PlayerColor.red, initializeTokens, true, 0, false⟩ 0 6).isSome = true :=
  ⟨by decide,
    moveToken_succeeds_on_valid _ _ 0 6 (by simp)
      (by
        intro i h
        have h4 : i < 4 := by simpa [initializeTokens] using h
        interval_cases i <;> rfl)
      (by decide)⟩

/-- A successful `moveToken` decomposes into destination, capture pass and
token update. -/
theorem moveToken_elim {players : List Player} {player : Player} {tokenId : Nat}
    {diceValue : Int} {r : MoveResult}
    (h : moveToken players player tokenId diceValue = some r) :
    tokenId ∈ getValidMoves players player diceValue ∧
    ∃ d ubm,
      moveDestination player tokenId diceValue = some d ∧
      (checkCapture players player d).find? (fun p => p.playerId == player.playerId)
        = some ubm ∧
      r.updatedPlayer =
        { ubm with tokens := ubm.tokens.map (moveTokenUpdate d tokenId) } ∧
      r.updatedPlayers = (checkCapture players player d).map
        (fun p => if p.playerId = player.playerId then r.updatedPlayer else p) ∧
      r.captured = (if d < 52 ∧ d ∉ SAFE_ZONES then
          players.any (fun otherPlayer =>
            !(otherPlayer.playerId == player.playerId) &&
              decide ((tokensAtPos otherPlayer d).length = 1))
        else false) := by
  rcases htok : player.tokens[tokenId]? with _ | token
  · simp only [moveToken, htok] at h
    cases h
  · simp only [moveToken, htok] at h
    by_cases hvm : tokenId ∈ getValidMoves players player diceValue
    · rw [if_pos hvm] at h
      refine ⟨hvm, ?_⟩
      rcases hdest : moveDestination player tokenId diceValue with _ | d
      · rw [hdest] at h
        cases h
      · rw [hdest] at h
        simp only at h
        rcases hfd : (checkCapture players player d).find?
            (fun p => p.playerId == player.playerId) with _ | ubm
        · rw [hfd] at h
          cases h
        · rw [hfd] at h
          simp only at h
          obtain rfl := Option.some.inj h
          exact ⟨d, ubm, rfl, hfd, rfl, rfl, rfl⟩
    · rw [if_neg hvm] at h
      cases h

/-! ## C8: the token invariant across engine operations -/

/-- `captureTokenAt` preserves the token invariant. -/
theorem captureTokenAt_inv {t : Token} (h : TokenInv t) (position : Int) :
    TokenInv (captureTokenAt position t) := by
  unfold captureTokenAt
  split_ifs with hc
  · refine ⟨?_, ?_, ?_⟩ <;> simp [hc.2.2]
  · exact h

/-- `moveTokenUpdate` establishes the token invariant on the moved token. -/
theorem moveTokenUpdate_inv {t : Token} (h : TokenInv t) (np : Int) (tid : Nat) :
    TokenInv (moveTokenUpdate np tid t) := by
  unfold moveTokenUpdate
  split_ifs with hc
  · refine ⟨?_, ?_, ?_⟩ <;> simp
  · exact h

/-- `checkCapture` preserves the token invariant across all players. -/
theorem checkCapture_inv (players : List Player) (movingPlayer : Player) (position : Int)
    (hinv : ∀ p ∈ players, ∀ t ∈ p.tokens, TokenInv t) :
    ∀ p ∈ checkCapture players movingPlayer position, ∀ t ∈ p.tokens, TokenInv t := by
  intro p hp t ht
  unfold checkCapture at hp
  split_ifs at hp
  · exact hinv p hp t ht
  · exact hinv p hp t ht
  · exact hinv p hp t ht
  · rcases List.mem_map.mp hp with ⟨q, hq, hqe⟩
    by_cases hpd : q.playerId = movingPlayer.playerId
    · rw [if_pos hpd] at hqe
      subst hqe
      exact hinv q hq t ht
    · rw [if_neg hpd] at hqe
      subst hqe
      rcases List.mem_map.mp ht with ⟨s, hs, hse⟩
      subst hse
      exact captureTokenAt_inv (hinv q hq s hs) position

/-- C8: every token produced by an engine operation satisfies the token
invariant (`isFinished` implies position 57, `isHome` implies position -1,
never both): `initializeTokens` establishes it outright, and `checkCapture`
and `moveToken` preserve it from their input roster. -/
theorem engine_token_invariant :
    (∀ t ∈ initializeTokens, TokenInv t) ∧
    (∀ (players : List Player) (movingPlayer : Player) (position : Int),
      (∀ p ∈ players, ∀ t ∈ p.tokens, TokenInv t) →
      ∀ p ∈ checkCapture players movingPlayer position, ∀ t ∈ p.tokens, TokenInv t) ∧
    (∀ (players : List Player) (player : Player) (tokenId : Nat) (diceValue : Int)
      (r : MoveResult), moveToken players player tokenId diceValue = some r →
      (∀ p ∈ players, ∀ t ∈ p.tokens, TokenInv t) →
      (∀ t ∈ r.updatedPlayer.tokens, TokenInv t) ∧
      (∀ p ∈ r.updatedPlayers, ∀ t ∈ p.tokens, TokenInv t)) := by
  refine ⟨?_, checkCapture_inv, ?_⟩
  · intro t ht
    simp only [initializeTokens, List.mem_map, List.mem_range] at ht
    obtain ⟨i, _, rfl⟩ := ht
    exact ⟨by simp [TokenInv], by simp, by simp⟩
  intro players player tokenId diceValue r hmv hinv
  obtain ⟨hvm, d, ubm, hdest, hfd, hup, hups, hcap⟩ := moveToken_elim hmv
  have hubm : ubm ∈ checkCapture players player d := List.mem_of_find?_eq_some hfd
  have hccinv := checkCapture_inv players player d hinv
  have hupinv : ∀ t ∈ r.updatedPlayer.tokens, TokenInv t := by
    rw [hup]
    intro t ht
    rcases List.mem_map.mp ht with ⟨s, hs, hse⟩
    subst hse
    exact moveTokenUpdate_inv (hccinv ubm hubm s hs) d tokenId
  refine ⟨hupinv, ?_⟩
  rw [hups]
  intro p hp t ht
  rcases List.mem_map.mp hp with ⟨q, hq, hqe⟩
  by_cases hqd : q.playerId = player.playerId
  · rw [if_pos hqd] at hqe
    subst hqe
    exact hupinv t ht
  · rw [if_neg hqd] at hqe
    subst hqe
    exact hccinv q hq t ht

/-- Witness for C8: the invariant holds on the outcome of a concrete
successful move (red brings token 0 out of base on a 6). -/
theorem engine_token_invariant_witness :
    moveToken [⟨"w8", "w8", PlayerColor.red, initializeTokens, true, 0, false⟩]
        ⟨"w8", "w8", PlayerColor.red, initializeTokens, true, 0, false⟩ 0 6 =
      some ⟨⟨"w8", "w8", PlayerColor.red,
          [⟨0, 0, false, false⟩, ⟨1, -1, true, false⟩, ⟨2, -1, true, false⟩,
            ⟨3, -1, true, false⟩], true, 0, false⟩,
        [⟨"w8", "w8", PlayerColor.red,
          [⟨0, 0, false, false⟩, ⟨1, -1, true, false⟩, ⟨2, -1, true, false⟩,
            ⟨3, -1, true, false⟩], true, 0, false⟩], false⟩ ∧
    (∀ t ∈ (⟨⟨"w8", "w8", PlayerColor.red,
          [⟨0, 0, false, false⟩, ⟨1, -1, true, false⟩, ⟨2, -1, true, false⟩,
            ⟨3, -1, true, false⟩], true, 0, false⟩,
        [⟨"w8", "w8", PlayerColor.red,
          [⟨0, 0, false, false⟩, ⟨1, -1, true, false⟩, ⟨2, -1, true, false⟩,
            ⟨3, -1, true, false⟩], true, 0, false⟩], false⟩ : MoveResult).updatedPlayer.tokens,
        TokenInv t) ∧
    (∀ p ∈ (⟨⟨"w8", "w8", PlayerColor.red,
          [⟨0, 0, false, false⟩, ⟨1, -1, true, false⟩, ⟨2, -1, true, false⟩,
            ⟨3, -1, true, false⟩], true, 0, false⟩,
        [⟨"w8", "w8", PlayerColor.red,
          [⟨0, 0, false, false⟩, ⟨1, -1, true, false⟩, ⟨2, -1, true, false⟩,
            ⟨3, -1, true, false⟩], true, 0, false⟩], false⟩ : MoveResult).updatedPlayers,
        ∀ t ∈ p.tokens, TokenInv t) :=
  ⟨by decide,
    engine_token_invariant.2.2
      [⟨"w8", "w8", PlayerColor.red, initializeTokens, true, 0, false⟩]
      ⟨"w8", "w8", PlayerColor.red, initializeTokens, true, 0, false⟩ 0 6
      ⟨⟨"w8", "w8", PlayerColor.red,
          [⟨0, 0, false, false⟩, ⟨1, -1, true, false⟩, ⟨2, -1, true, false⟩,
            ⟨3, -1, true, false⟩], true, 0, false⟩,
        [⟨"w8", "w8", PlayerColor.red,
          [⟨0, 0, false, false⟩, ⟨1, -1, true, false⟩, ⟨2, -1, true, false⟩,
            ⟨3, -1, true, false⟩], true, 0, false⟩], false⟩ (by decide)
      (by
        intro p hp t ht
        simp only [List.mem_singleton] at hp
        subst hp
        have h4 : t ∈ initializeTokens := ht
        simp only [initializeTokens, List.mem_map, List.mem_range] at h4
        obtain ⟨i, _, rfl⟩ := h4
        exact ⟨by simp [TokenInv], by simp, by simp⟩)⟩

/-! ## C4: capture rule of `moveToken` -/

/-- A list of naturals summing to 1 has an element equal to 1. -/
theorem natSum_eq_one {l : List Nat} (h : l.sum = 1) : ∃ x ∈ l, x = 1 := by
  induction l with
  | nil => cases h
  | cons a t ih =>
    simp only [List.sum_cons] at h
    by_cases ha : a = 1
    · exact ⟨a, List.mem_cons_self a t, ha⟩
    · have ha0 : a = 0 := by omega
      have ht : t.sum = 1 := by omega
      obtain ⟨x, hx, hx1⟩ := ih ht
      exact ⟨x, List.mem_cons_of_mem a hx, hx1⟩

/-- C4: a successful `moveToken` whose destination `d` is a non-safe
main-track square holding exactly one active opponent token sends that token
back to base (the capture map applied to every opponent) and reports
`captured = true`; and no opponent token is ever touched when the
destination is a safe zone, a home-column position, or a main-track square
carrying an opposing block of 2+ tokens.  The mover's id is a JS-truthy
(nonempty) string, as the data model's opaque identifiers are. -/
theorem moveToken_capture_spec (players : List Player) (player : Player)
    (tokenId : Nat) (diceValue : Int) (r : MoveResult) (d : Int)
    (hpid : jsTruthy player.playerId = true)
    (hmv : moveToken players player tokenId diceValue = some r)
    (hd : moveDestination player tokenId diceValue = some d) :
    ((d < 52 ∧ d ∉ SAFE_ZONES ∧ opponentActiveAt players player.playerId d = 1) →
      r.captured = true ∧
      r.updatedPlayers = players.map (fun p =>
        if p.playerId = player.playerId then r.updatedPlayer
        else { p with tokens := p.tokens.map (captureTokenAt d) })) ∧
    ((d ∈ SAFE_ZONES ∨ 52 ≤ d ∨
        ∃ op ∈ players, op.playerId ≠ player.playerId ∧ 0 ≤ d ∧ d < 52 ∧
          2 ≤ (tokensAtPos op d).length) →
      r.updatedPlayers = players.map (fun p =>
        if p.playerId = player.playerId then r.updatedPlayer else p)) := by
  obtain ⟨hvm, d', ubm, hdest, hfd, hup, hups, hcap⟩ := moveToken_elim hmv
  have hdd : d' = d := by
    rw [hdest] at hd
    exact Option.some.inj hd
  subst d'
  constructor
  · rintro ⟨hd52, hdsafe, hcount⟩
    unfold opponentActiveAt at hcount
    have hle : ∀ p ∈ players, p.playerId ≠ player.playerId →
        (tokensAtPos p d).length ≤ 1 := by
      intro p hp hne
      have hpf : p ∈ players.filter (fun q => !(q.playerId == player.playerId)) :=
        List.mem_filter.mpr ⟨hp, by simp [hne]⟩
      have hmem : (tokensAtPos p d).length ∈
          (players.filter (fun q => !(q.playerId == player.playerId))).map
            (fun q => (tokensAtPos q d).length) :=
        List.mem_map.mpr ⟨p, hpf, rfl⟩
      have := List.single_le_sum (fun x _ => Nat.zero_le x) _ hmem
      omega
    have hblk : (hasBlock players d (some player.playerId)).1 = false := by
      unfold hasBlock
      split_ifs with hrange
      · rfl
      · rw [List.find?_eq_none.mpr ?_]
        · intro p hp
          by_cases hpp : p.playerId = player.playerId
          · simp [blockExcluded, hpp, hpid]
          · have := hle p hp hpp
            simp only [Bool.and_eq_true, Bool.not_eq_true, decide_eq_true_eq]
            omega
    have hcc : checkCapture players player d = players.map (fun p =>
        if p.playerId = player.playerId then p
        else { p with tokens := p.tokens.map (captureTokenAt d) }) := by
      unfold checkCapture
      rw [if_neg (by omega), if_neg hdsafe, if_neg (by simp [hblk])]
    constructor
    · rw [hcap, if_pos ⟨hd52, hdsafe⟩]
      obtain ⟨x, hx, hx1⟩ := natSum_eq_one hcount
      rcases List.mem_map.mp hx with ⟨op, hopf, hope⟩
      obtain ⟨hop, hopb⟩ := List.mem_filter.mp hopf
      apply List.any_eq_true.mpr
      refine ⟨op, hop, ?_⟩
      have hlen1 : (tokensAtPos op d).length = 1 := hope.trans hx1
      simp [hopb, hlen1]
    · rw [hups, hcc, List.map_map]
      apply List.map_congr_left
      intro p hp
      by_cases h : p.playerId = player.playerId <;> simp [h]
  · intro hneg
    have hcc : checkCapture players player d = players := by
      unfold checkCapture
      rcases hneg with hsafe | h52 | ⟨op, hop, hopid, hd0, hdlt, hopblk⟩
      · split_ifs <;> rfl
      · rw [if_pos h52]
      · have hfs : (players.find? (fun p =>
            !(blockExcluded (some player.playerId) p.playerId) &&
              decide (2 ≤ (tokensAtPos p d).length))).isSome = true := by
          apply List.find?_isSome.mpr
          refine ⟨op, hop, ?_⟩
          simp only [Bool.and_eq_true, Bool.not_eq_true, decide_eq_true_eq]
          constructor
          · simp [blockExcluded, hopid]
          · exact hopblk
        have hblk : (hasBlock players d (some player.playerId)).1 = true := by
          unfold hasBlock
          rw [if_neg (by omega)]
          rcases hq : players.find? (fun p =>
              !(blockExcluded (some player.playerId) p.playerId) &&
                decide (2 ≤ (tokensAtPos p d).length)) with _ | q
          · rw [hq] at hfs
            cases hfs
          · rw [hq]
        split_ifs <;> rfl
    rw [hups, hcc]

/-- The mover of the C4 witness: red token 0 on square 1, rest in base. -/
def capMover : Player :=
  ⟨"m", "m", PlayerColor.red,
    [⟨0, 1, false, false⟩, ⟨1, -1, true, false⟩, ⟨2, -1, true, false⟩, ⟨3, -1, true, false⟩],
    true, 0, false⟩

/-- The opponent of the C4 witness: blue token 0 on square 5, rest in base. -/
def capOpp : Player :=
  ⟨"o", "o", PlayerColor.blue,
    [⟨0, 5, false, false⟩, ⟨1, -1, true, false⟩, ⟨2, -1, true, false⟩, ⟨3, -1, true, false⟩],
    true, 1, false⟩

/-- The result of the C4 witness move (red 1 → 5 capturing blue's token). -/
def capRes : MoveResult :=
  ⟨⟨"m", "m", PlayerColor.red,
    [⟨0, 5, false, false⟩, ⟨1, -1, true, false⟩, ⟨2, -1, true, false⟩, ⟨3, -1, true, false⟩],
    true, 0, false⟩,
  [⟨"m", "m", PlayerColor.red,
    [⟨0, 5, false, false⟩, ⟨1, -1, true, false⟩, ⟨2, -1, true, false⟩, ⟨3, -1, true, false⟩],
    true, 0, false⟩,
   ⟨"o", "o", PlayerColor.blue,
    [⟨0, -1, true, false⟩, ⟨1, -1, true, false⟩, ⟨2, -1, true, false⟩, ⟨3, -1, true, false⟩],
    true, 1, false⟩],
  true⟩

/-- Witness for C4: red moves token 0 from square 1 to square 5 with a 4 and
captures the single blue token sitting there. -/
theorem moveToken_capture_spec_witness :
    moveToken [capMover, capOpp] capMover 0 4 = some capRes ∧
    (capRes.captured = true ∧
      capRes.updatedPlayers = [capMover, capOpp].map (fun p =>
        if p.playerId = capMover.playerId then capRes.updatedPlayer
        else { p with tokens := p.tokens.map (captureTokenAt 5) })) :=
  ⟨by decide,
    (moveToken_capture_spec [capMover, capOpp] capMover 0 4 capRes 5
      (by decide) (by decide) (by decide)).1 (by decide)⟩

/-! ## C5: leaving base on a 6 and the entry-square block -/

/-- `boardTokenMove` only ever returns the examined token's id. -/
theorem boardTokenMove_id {players : List Player} {player : Player} {diceValue : Int}
    {token : Token} {x : Nat} (h : boardTokenMove players player diceValue token = some x) :
    x = token.id := by
  unfold boardTokenMove at h
  split at h
  next => cases h
  next np hc =>
    split_ifs at h
    exact (Option.some.inj h).symm

/-- C5 (amended): when `diceValue = 6` and the player does not themself have
two or more active tokens on the entry square, every in-base token of the
player is in `getValidMoves` exactly when no opponent holds a block of 2+
tokens on the entry square `START_POSITIONS[color]`; for any other dice
value no in-base token is ever in `getValidMoves`.  (When the player's own
block and an opponent block sit on the entry square together, admission
instead follows whichever blocking player `hasBlock` finds first in list
order — see the counterexample.)  Ids are assumed distinct as in the data
model. -/
theorem baseEntry_validMoves (players : List Player) (player : Player) (diceValue : Int)
    (hmem : player ∈ players)
    (hpids : (players.map Player.playerId).Nodup)
    (hids : (player.tokens.map Token.id).Nodup) :
    (∀ t ∈ player.tokens, t.isHome = true → t.isFinished = false →
      diceValue = 6 →
      (tokensAtPos player (START_POSITIONS player.color)).length < 2 →
      (t.id ∈ getValidMoves players player diceValue ↔
        ¬ ∃ op ∈ players, op.playerId ≠ player.playerId ∧
          2 ≤ (tokensAtPos op (START_POSITIONS player.color)).length)) ∧
    (∀ t ∈ player.tokens, t.isHome = true → diceValue ≠ 6 →
      t.id ∉ getValidMoves players player diceValue) := by
  have hinj := List.inj_on_of_nodup_map hids
  have hpinj := List.inj_on_of_nodup_map hpids
  have hrange : ¬ (START_POSITIONS player.color < 0 ∨ 52 ≤ START_POSITIONS player.color) := by
    cases player.color <;> simp [START_POSITIONS]
  have hnotboard : ∀ t ∈ player.tokens, t.isHome = true →
      t.id ∉ (player.tokens.filter (fun t => !t.isHome && !t.isFinished)).filterMap
        (boardTokenMove players player diceValue) := by
    intro t ht hHome hin
    rcases List.mem_filterMap.mp hin with ⟨t', ht', hft⟩
    have hid' := boardTokenMove_id hft
    have ht'mem := (List.mem_filter.mp ht').1
    have ht'home : t'.isHome = false := by
      have := (List.mem_filter.mp ht').2
      simp only [Bool.and_eq_true, Bool.not_eq_true'] at this
      exact this.1
    have : t' = t := hinj ht'mem ht hid'.symm
    subst this
    rw [hHome] at ht'home
    cases ht'home
  constructor
  · intro t ht hHome hFin hd6 hown
    subst hd6
    constructor
    · intro hin
      rintro ⟨op, hop, hopid, hopblk⟩
      have hfs : (players.find? (fun p =>
          !(blockExcluded none p.playerId) &&
            decide (2 ≤ (tokensAtPos p (START_POSITIONS player.color)).length))).isSome
          = true := by
        apply List.find?_isSome.mpr
        exact ⟨op, hop, by simp [blockExcluded, hopblk]⟩
      rcases hq : players.find? (fun p =>
          !(blockExcluded none p.playerId) &&
            decide (2 ≤ (tokensAtPos p (START_POSITIONS player.color)).length))
          with _ | q
      · rw [hq] at hfs
        cases hfs
      · have hqmem : q ∈ players := List.mem_of_find?_eq_some hq
        have hqpred := List.find?_some hq
        simp only [Bool.and_eq_true, decide_eq_true_eq] at hqpred
        have hqne : q.playerId ≠ player.playerId := by
          intro he
          have : q = player := hpinj hqmem hmem he
          subst this
          omega
        have hhb : hasBlock players (START_POSITIONS player.color) none =
            (true, some q.playerId) := by
          unfold hasBlock
          rw [if_neg hrange, hq]
        simp only [getValidMoves, hhb] at hin
        simp only [Bool.not_true, Bool.false_or, beq_iff_eq, Option.some.injEq] at hin
        rw [if_pos trivial] at hin
        rw [if_neg hqne] at hin
        simp only [ite_self, List.nil_append] at hin
        exact hnotboard t ht hHome hin
    · intro hopp
      have hfe : players.find? (fun p =>
          !(blockExcluded none p.playerId) &&
            decide (2 ≤ (tokensAtPos p (START_POSITIONS player.color)).length)) = none := by
        apply List.find?_eq_none.mpr
        intro p hp
        simp only [Bool.and_eq_true, Bool.not_eq_true, decide_eq_true_eq]
        by_cases hpp : p.playerId = player.playerId
        · have : p = player := hpinj hp hmem hpp
          subst this
          omega
        · intro hcon
          exact hopp ⟨p, hp, hpp, hcon.2⟩
      have hhb : hasBlock players (START_POSITIONS player.color) none = (false, none) := by
        unfold hasBlock
        rw [if_neg hrange, hfe]
      have htf : t ∈ player.tokens.filter (fun t => t.isHome && !t.isFinished) :=
        List.mem_filter.mpr ⟨ht, by simp [hHome, hFin]⟩
      simp only [getValidMoves, hhb]
      apply List.mem_append.mpr
      left
      rw [if_pos trivial]
      rw [if_pos (List.length_pos.mpr (List.ne_nil_of_mem htf))]
      rw [if_pos (by simp)]
      exact List.mem_map.mpr ⟨t, htf, rfl⟩
  · intro t ht hHome hd6 hin
    simp only [getValidMoves, if_neg hd6, List.nil_append] at hin
    exact hnotboard t ht hHome hin

/-- The C5 counterexample's player: a base token plus an own block (two
active tokens) on their entry square 0. -/
def entryOwn : Player :=
  ⟨"A", "A", PlayerColor.red,
    [⟨0, -1, true, false⟩, ⟨1, 0, false, false⟩, ⟨2, 0, false, false⟩], true, 0, false⟩

/-- The C5 counterexample's opponent: a blue block (two tokens) on red's
entry square 0. -/
def entryOpp : Player :=
  ⟨"B", "B", PlayerColor.blue,
    [⟨0, 0, false, false⟩, ⟨1, 0, false, false⟩], true, 1, false⟩

/-- Counterexample to C5 as stated: the entry square carries an opponent
block of 2+ tokens, yet the in-base token 0 is still in `getValidMoves`,
because `hasBlock` reports the player's own block first. -/
theorem baseEntry_counterexample :
    (0 : Nat) ∈ getValidMoves [entryOwn, entryOpp] entryOwn 6 ∧
    entryOwn.tokens[0]? = some ⟨0, -1, true, false⟩ ∧
    entryOpp.playerId ≠ entryOwn.playerId ∧
    2 ≤ (tokensAtPos entryOpp (START_POSITIONS entryOwn.color)).length := by
  decide

/-- Witness for the amended C5: with no block anywhere, the base token is
admitted on a 6. -/
theorem baseEntry_validMoves_witness :
    (0 : Nat) ∈ getValidMoves
      [⟨"W", "W", PlayerColor.red, [⟨0, -1, true, false⟩], true, 0, false⟩]
      ⟨"W", "W", PlayerColor.red, [⟨0, -1, true, false⟩], true, 0, false⟩ 6 :=
  ((baseEntry_validMoves
      [⟨"W", "W", PlayerColor.red, [⟨0, -1, true, false⟩], true, 0, false⟩]
      ⟨"W", "W", PlayerColor.red, [⟨0, -1, true, false⟩], true, 0, false⟩ 6
      (by simp) (by decide) (by decide)).1
    ⟨0, -1, true, false⟩ (by decide) rfl rfl rfl (by decide)).mpr (by decide)

/-! ## C9: the bot picks only legal moves -/

/-- `botScore` only ever returns the examined token id. -/
theorem botScore_id {players : List Player} {player : Player} {diceValue : Int}
    {tid : Nat} {ms : MoveScore}
    (h : botScore players player diceValue tid = some ms) : ms.tokenId = tid := by
  simp only [botScore] at h
  split at h
  next => cases h
  next token htok =>
    split at h
    next heq =>
      obtain rfl := Option.some.inj h
      rfl
    next np heq =>
      obtain rfl := Option.some.inj h
      rfl

/-- C9: `chooseBotMove` returns no move exactly when `getValidMoves` is
empty; any move it returns is an element of `getValidMoves`; and when
exactly one legal move exists it is chosen (without scoring). -/
theorem chooseBotMove_spec (players : List Player) (player : Player) (diceValue : Int) :
    (chooseBotMove players player diceValue = none ↔
      getValidMoves players player diceValue = []) ∧
    (∀ tid, chooseBotMove players player diceValue = some tid →
      tid ∈ getValidMoves players player diceValue) ∧
    (∀ tid, getValidMoves players player diceValue = [tid] →
      chooseBotMove players player diceValue = some tid) := by
  have hsingle : ∀ tid, getValidMoves players player diceValue = [tid] →
      chooseBotMove players player diceValue = some tid := by
    intro tid htid
    simp [chooseBotMove, htid]
  by_cases h0 : getValidMoves players player diceValue = []
  · refine ⟨by simp [chooseBotMove, h0], ?_, hsingle⟩
    intro tid htid
    simp [chooseBotMove, h0] at htid
  · have hlen0 : ¬ (getValidMoves players player diceValue).length = 0 := by
      simpa [List.length_eq_zero] using h0
    have hsome : ∃ y, chooseBotMove players player diceValue = some y ∧
        y ∈ getValidMoves players player diceValue := by
      by_cases h1 : (getValidMoves players player diceValue).length = 1
      · obtain ⟨x, hx⟩ := List.length_eq_one.mp h1
        exact ⟨x, hsingle x hx, by rw [hx]; exact List.mem_singleton_self x⟩
      · have hred : chooseBotMove players player diceValue =
            (match ((getValidMoves players player diceValue).filterMap
                (botScore players player diceValue)).mergeSort
                (fun a b => decide (b.score ≤ a.score)) |>.head? with
              | some best => some best.tokenId
              | none => (getValidMoves players player diceValue).head?) := by
          simp only [chooseBotMove]
          rw [if_neg hlen0, if_neg h1]
        rcases hh : (((getValidMoves players player diceValue).filterMap
            (botScore players player diceValue)).mergeSort
            (fun a b => decide (b.score ≤ a.score))).head? with _ | best
        · rcases hg : getValidMoves players player diceValue with _ | ⟨y, ys⟩
          · exact absurd hg h0
          · refine ⟨y, ?_, List.mem_cons_self y ys⟩
            rw [hred, hh, hg]
            rfl
        · have hbest : best ∈ ((getValidMoves players player diceValue).filterMap
              (botScore players player diceValue)).mergeSort
              (fun a b => decide (b.score ≤ a.score)) := List.mem_of_mem_head? hh
          rw [List.mem_mergeSort] at hbest
          rcases List.mem_filterMap.mp hbest with ⟨tid', htid', hbs⟩
          refine ⟨best.tokenId, ?_, ?_⟩
          · rw [hred, hh]
          · rw [botScore_id hbs]
            exact htid'
    obtain ⟨y, hy, hymem⟩ := hsome
    refine ⟨?_, ?_, hsingle⟩
    · rw [hy]
      simp [h0]
    · intro tid htid
      rw [hy] at htid
      obtain rfl := Option.some.inj htid
      exact hymem

/-- Witness for C9: a lone board token is the unique legal move and the bot
picks it. -/
theorem chooseBotMove_spec_witness :
    chooseBotMove [⟨"b", "b", PlayerColor.red, [⟨0, 5, false, false⟩], true, 0, true⟩]
      ⟨"b", "b", PlayerColor.red, [⟨0, 5, false, false⟩], true, 0, true⟩ 2 = some 0 :=
  (chooseBotMove_spec [⟨"b", "b", PlayerColor.red, [⟨0, 5, false, false⟩], true, 0, true⟩]
    ⟨"b", "b", PlayerColor.red, [⟨0, 5, false, false⟩], true, 0, true⟩ 2).2.2 0 (by decide)

/-! ## C3: home-column jump rejection -/

/-- The C3 failing input: red token 0 on square 50 (about to enter the home
column with a 6) and own unfinished token 1 on home-column square 52. -/
def jumpPlayer : Player :=
  ⟨"p1", "p1", PlayerColor.red,
    [⟨0, 50, false, false⟩, ⟨1, 52, false, false⟩], true, 0, false⟩

/-- C3 (code bug): the engine is meant to reject a move that enters the home
column jumping over an own token (`wouldJumpOwnTokenInHomeColumn` called
from square 51), but that function returns false whenever `fromPosition <
52`, so the entering-home check never fires: token 0's move from 50 to 56
jumps over the own unfinished token at 52 yet `getValidMoves` still returns
it.  The within-column case does work: with own tokens at home offsets 0 and
3, moving the offset-0 token by 4 (to offset 4, over the token at offset 3)
is rejected. -/
theorem enteringHome_jump_not_rejected :
    calculateNewPosition jumpPlayer.color 50 6 = some 56 ∧
    (∃ t ∈ jumpPlayer.tokens, t.id ≠ 0 ∧ t.isFinished = false ∧
      51 < t.position ∧ t.position < 56) ∧
    wouldJumpOwnTokenInHomeColumn jumpPlayer 0 (52 - 1) 56 = false ∧
    getValidMoves [jumpPlayer] jumpPlayer 6 = [0] ∧
    getValidMoves
      [⟨"q", "q", PlayerColor.red, [⟨0, 52, false, false⟩, ⟨1, 55, false, false⟩],
        true, 0, false⟩]
      ⟨"q", "q", PlayerColor.red, [⟨0, 52, false, false⟩, ⟨1, 55, false, false⟩],
        true, 0, false⟩ 4 = [] := by
  decide
